import Mathlib

/-!
Verification development for the FadeNote note lifecycle and index
reconciliation engine (src/src-tauri/src/main.rs).

Shallow embedding conventions:
* Rust `String` / `&str` values are modelled as `List Char` (`Str` below);
  `str::lines`, `str::trim`, `str::starts_with`, `splitn` and `join` are
  modelled by the executable functions `rustLines`, `rustTrim`,
  `List.isPrefixOf`, and `joinNl`.  `rustTrim` strips the four ASCII
  whitespace characters (space, tab, CR, LF); the Unicode whitespace
  accepted by Rust's `char::is_whitespace` is not relevant to any claim.
* Instants of time are modelled as `Int` (seconds on a single timeline);
  the process-local timezone is modelled as UTC, so chrono's
  `to_rfc3339` is `fmtRfc3339` and `DateTime::parse_from_rfc3339`
  followed by the `naive_local().and_local_timezone(Local)` dance used in
  `is_expired_check` yields the naive wall-clock seconds returned by
  `parseRfc3339` (the embedded numeric offset is validated syntactically
  and then discarded, exactly as the naive reinterpretation does under a
  UTC local timezone).  `chrono::Duration::days 7` is `7 * 86400` seconds.
* Filesystem reads are modelled by passing the observed data in:
  a directory scan becomes a `List FileObs` (file content, path relative
  to the notes root, filesystem creation instant, in traversal order), and
  the persisted `index.json` that several functions re-read becomes an
  `IndexFile` / `Option IndexFile` argument.  `Uuid::new_v4` is modelled
  by a supply `fresh : Nat -> Str` of generated identifiers.
* Fallible Rust functions returning `Result<T, String>` become
  `Except Str T`; an `Err` return before any write leaves every modelled
  state unchanged (the model returns no new state on `.error`).
* `f64` window coordinates are an opaque payload for every claim; they are
  carried as `Int` fields so that equality stays decidable.
-/

namespace FadeNote

/-- Rust strings, modelled as lists of characters. -/
abbrev Str := List Char

/-- ASCII whitespace test used by the `trim` model. -/
def isWs (c : Char) : Bool :=
  c = ' ' || c = '\t' || c = '\n' || c = '\r'

/-- Remove trailing whitespace characters (right half of `str::trim`). -/
def trimRightWs : Str → Str
  | [] => []
  | c :: t =>
    match trimRightWs t with
    | [] => if isWs c then [] else [c]
    | r => c :: r

/-- Model of Rust `str::trim`: strip whitespace from both ends. -/
def rustTrim (s : Str) : Str :=
  trimRightWs (s.dropWhile isWs)

/-- Strip one trailing carriage return, as `str::lines` does per line. -/
def stripCr (s : Str) : Str :=
  if s.getLast? = some '\r' then s.dropLast else s

/-- Split at every newline character (keeps a final empty segment). -/
def splitOnNl : Str → List Str
  | [] => [[]]
  | c :: t =>
    if c = '\n' then [] :: splitOnNl t
    else
      match splitOnNl t with
      | [] => [[c]]
      | l :: ls => (c :: l) :: ls

/-- Model of Rust `str::lines`: split on `\n`, drop a final empty segment
produced by a trailing newline, and strip one trailing `\r` per line. -/
def rustLines (s : Str) : List Str :=
  if s = [] then []
  else ((if (splitOnNl s).getLast? = some [] then (splitOnNl s).dropLast
         else splitOnNl s).map stripCr)

/-- Model of `[&str].join("\n")`. -/
def joinNl : List Str → Str
  | [] => []
  | [l] => l
  | l :: ls => l ++ '\n' :: joinNl ls

/-! ## Time model (chrono under a UTC local timezone) -/

/-- Numeric value of an ASCII digit. -/
def digitVal (c : Char) : Option Nat :=
  if '0' ≤ c ∧ c ≤ '9' then some (c.toNat - 48) else none

/-- Read exactly two digits. -/
def parse2 : Str → Option (Nat × Str)
  | c1 :: c2 :: rest =>
    match digitVal c1, digitVal c2 with
    | some d1, some d2 => some (d1 * 10 + d2, rest)
    | _, _ => none
  | _ => none

/-- Read exactly four digits. -/
def parse4 (s : Str) : Option (Nat × Str) :=
  match parse2 s with
  | some (hi, rest) =>
    match parse2 rest with
    | some (lo, rest2) => some (hi * 100 + lo, rest2)
    | none => none
  | none => none

/-- Require a specific next character. -/
def expectChar (c : Char) : Str → Option Str
  | d :: rest => if d = c then some rest else none
  | [] => none

/-- Skip an optional fractional-seconds group `.d+`. -/
def skipFrac : Str → Option Str
  | '.' :: rest =>
    match rest with
    | c :: _ =>
      if (digitVal c).isSome then
        some (rest.dropWhile (fun d => (digitVal d).isSome))
      else none
    | [] => none
  | s => some s

/-- Parse and validate the trailing offset (`Z` or `±HH:MM`);
the whole input must be consumed. -/
def parseOffset : Str → Option Int
  | ['Z'] => some 0
  | ['z'] => some 0
  | sign :: rest =>
    if sign = '+' ∨ sign = '-' then
      match parse2 rest with
      | some (hh, rest2) =>
        match expectChar ':' rest2 with
        | some rest3 =>
          match parse2 rest3 with
          | some (mm, rest4) =>
            if rest4 = [] ∧ hh ≤ 23 ∧ mm ≤ 59 then
              some (if sign = '+' then ((hh * 3600 + mm * 60 : Nat) : Int)
                    else -((hh * 3600 + mm * 60 : Nat) : Int))
            else none
          | none => none
        | none => none
      | none => none
    else none
  | [] => none

/-- Gregorian leap year. -/
def isLeapYear (y : Nat) : Bool :=
  y % 4 = 0 ∧ (y % 100 ≠ 0 ∨ y % 400 = 0)

/-- Length of a month. -/
def daysInMonth (y m : Nat) : Nat :=
  if m = 2 then (if isLeapYear y then 29 else 28)
  else if m = 4 ∨ m = 6 ∨ m = 9 ∨ m = 11 then 30
  else 31

/-- Days since 1970-01-01 of a civil date (floor-division form of the
standard civil-from-days algorithm). -/
def daysFromCivil (y : Int) (m d : Nat) : Int :=
  let y2 := if m ≤ 2 then y - 1 else y
  let era := Int.fdiv y2 400
  let yoe := y2 - era * 400
  let mp : Int := if 2 < m then (m : Int) - 3 else (m : Int) + 9
  let doy := Int.fdiv (153 * mp + 2) 5 + (d : Int) - 1
  let doe := yoe * 365 + Int.fdiv yoe 4 - Int.fdiv yoe 100 + doy
  era * 146097 + doe - 719468

/-- Model of `DateTime::parse_from_rfc3339` as used by this program:
returns the naive wall-clock value in seconds (see the header notes);
`none` models chrono's `Err`. -/
def parseRfc3339 (s : Str) : Option Int :=
  match parse4 s with
  | none => none
  | some (y, r1) =>
    match expectChar '-' r1 with
    | none => none
    | some r2 =>
      match parse2 r2 with
      | none => none
      | some (mo, r3) =>
        match expectChar '-' r3 with
        | none => none
        | some r4 =>
          match parse2 r4 with
          | none => none
          | some (d, r5) =>
            match r5 with
            | [] => none
            | sep :: r6 =>
              if sep = 'T' ∨ sep = 't' ∨ sep = ' ' then
                match parse2 r6 with
                | none => none
                | some (h, r7) =>
                  match expectChar ':' r7 with
                  | none => none
                  | some r8 =>
                    match parse2 r8 with
                    | none => none
                    | some (mi, r9) =>
                      match expectChar ':' r9 with
                      | none => none
                      | some r10 =>
                        match parse2 r10 with
                        | none => none
                        | some (sec, r11) =>
                          match skipFrac r11 with
                          | none => none
                          | some r12 =>
                            match parseOffset r12 with
                            | none => none
                            | some _off =>
                              if 1 ≤ mo ∧ mo ≤ 12 ∧ 1 ≤ d ∧
                                 d ≤ daysInMonth y mo ∧
                                 h ≤ 23 ∧ mi ≤ 59 ∧ sec ≤ 59 then
                                some (daysFromCivil (y : Int) mo d * 86400 +
                                      (h * 3600 + mi * 60 + sec : Nat))
                              else none
              else none

/-- Civil date of a day count since 1970-01-01. -/
def civilFromDays (z0 : Int) : Int × Nat × Nat :=
  let z := z0 + 719468
  let era := Int.fdiv z 146097
  let doe := z - era * 146097
  let yoe := Int.fdiv (doe - Int.fdiv doe 1460 + Int.fdiv doe 36524 -
                       Int.fdiv doe 146096) 365
  let y := yoe + era * 400
  let doy := doe - (365 * yoe + Int.fdiv yoe 4 - Int.fdiv yoe 100)
  let mp := Int.fdiv (5 * doy + 2) 153
  let d := (doy - Int.fdiv (153 * mp + 2) 5 + 1).toNat
  let m := (if mp < 10 then mp + 3 else mp - 9).toNat
  ((if m ≤ 2 then y + 1 else y), m, d)

/-- Two-digit zero-padded decimal. -/
def pad2 (n : Nat) : Str :=
  [Char.ofNat (48 + n / 10 % 10), Char.ofNat (48 + n % 10)]

/-- Four-digit zero-padded decimal. -/
def pad4 (n : Nat) : Str :=
  [Char.ofNat (48 + n / 1000 % 10), Char.ofNat (48 + n / 100 % 10),
   Char.ofNat (48 + n / 10 % 10), Char.ofNat (48 + n % 10)]

/-- Model of chrono `to_rfc3339` under the UTC local timezone
(`get_current_iso8601_time` is `fmtRfc3339` of the current instant). -/
def fmtRfc3339 (t : Int) : Str :=
  let days := Int.fdiv t 86400
  let secs := (t - days * 86400).toNat
  let ymd := civilFromDays days
  pad4 ymd.1.toNat ++ '-' :: pad2 ymd.2.1 ++ '-' :: pad2 ymd.2.2 ++
    'T' :: pad2 (secs / 3600) ++ ':' :: pad2 (secs % 3600 / 60) ++
    ':' :: pad2 (secs % 60) ++ "+00:00".toList

/-! ## Data model (the V2 index document) -/

/-- App metadata of the index document (`AppInfo`). -/
structure AppInfo where
  name : Str
  created_at : Str
  rebuild_at : Option Str
deriving DecidableEq

/-- Window placement payload (f64 in Rust, opaque to every claim). -/
structure WindowInfo where
  x : Int
  y : Int
  width : Int
  height : Int
deriving DecidableEq

/-- Backing-file record of an entry. -/
structure FileInfo where
  relative_path : Str
deriving DecidableEq

/-- One note entry of the index. -/
structure NoteEntry where
  id : Str
  created_at : Str
  last_active_at : Str
  expire_at : Option Str
  cached_preview : Option Str
  status : Str
  archived_at : Option Str
  window : Option WindowInfo
  pinned : Bool
  file : FileInfo
deriving DecidableEq

/-- The persisted index document. -/
structure IndexFile where
  version : Nat
  app : AppInfo
  notes : List NoteEntry
deriving DecidableEq

/-! ## Domain queries and lifecycle (`is_archived` .. `apply_expire_pass`) -/

/-- Query `is_archived`: the entry has an `archivedAt`. -/
def is_archived (e : NoteEntry) : Bool :=
  e.archived_at.isSome

/-- Query `is_active`: the entry has no `archivedAt`. -/
def is_active (e : NoteEntry) : Bool :=
  e.archived_at.isNone

/-- Query `is_expired_check`: a pinned entry never expires; otherwise the entry
is expired when `expireAt` parses and lies strictly before `now`
(an unparseable `expireAt` counts as not expired). -/
def is_expired_check (e : NoteEntry) (now : Int) : Bool :=
  if e.pinned then false
  else
    match e.expire_at with
    | some time_str =>
      match parseRfc3339 time_str with
      | some expire_wall => decide (expire_wall < now)
      | none => false
    | none => false

/-- Transition `archive_note`: the single archival entry point; stamps `archivedAt`
and clears `expireAt`.  It always returns `Ok` in the source. -/
def archive_note (e : NoteEntry) (now : Int) : Except Str NoteEntry :=
  .ok { e with archived_at := some (fmtRfc3339 now), expire_at := none }

/-- Derivation `derive_status`: recompute `status` from `archivedAt`. -/
def derive_status (e : NoteEntry) : NoteEntry :=
  { e with status := if e.archived_at.isSome then "archived".toList
                     else "active".toList }

/-- Body of the `apply_expire_pass` loop for one entry: an active, expired
entry is archived through `archive_note`; on the (dead) error branch the
caller still stamps `archivedAt` so the pass never retries. -/
def expireStep (now : Int) (e : NoteEntry) : NoteEntry :=
  if e.archived_at.isNone && is_expired_check e now then
    match archive_note e now with
    | .ok e2 => e2
    | .error _ => { e with archived_at := some (fmtRfc3339 now) }
  else e

/-- Sweep `apply_expire_pass`: run `expireStep` over every entry. -/
def apply_expire_pass (index : IndexFile) (now : Int) : IndexFile :=
  { index with notes := index.notes.map (expireStep now) }

/-! ## Header codec -/

/-- The front-matter delimiter line. -/
def dashes : Str := "---".toList

/-- Walk the lines of a file with the `in_front_matter` flag, returning the
value of the first `id:` line inside the first delimited block
(`parse_id_from_content`'s loop; the second delimiter breaks the loop). -/
def parse_id_lines : List Str → Bool → Option Str
  | [], _ => none
  | l :: ls, inFm =>
    if rustTrim l = dashes then
      if inFm then none else parse_id_lines ls true
    else if inFm then
      if "id:".toList.isPrefixOf l then some (rustTrim (l.drop 3))
      else parse_id_lines ls true
    else parse_id_lines ls false

/-- Codec `parse_id_from_content`: the embedded id of a note file. -/
def parse_id_from_content (content : Str) : Option Str :=
  parse_id_lines (rustLines content) false

/-- Same walk for the `createdAt:` field
(`extract_created_at_from_content`). -/
def parse_created_at_lines : List Str → Bool → Option Str
  | [], _ => none
  | l :: ls, inFm =>
    if rustTrim l = dashes then
      if inFm then none else parse_created_at_lines ls true
    else if inFm then
      if "createdAt:".toList.isPrefixOf l then some (rustTrim (l.drop 10))
      else parse_created_at_lines ls true
    else parse_created_at_lines ls false

/-- Codec `extract_created_at_from_content`. -/
def extract_created_at_from_content (content : Str) : Option Str :=
  parse_created_at_lines (rustLines content) false

/-- Codec `extract_first_line_preview`: first non-blank line, trimmed, at most
50 characters. -/
def extract_first_line_preview (content : Str) : Option Str :=
  (rustLines content).firstM fun l =>
    let t := rustTrim l
    if t = [] then none else some (t.take 50)

/-- Does a line trim to `---`? -/
def isDashLine (l : Str) : Bool :=
  decide (rustTrim l = dashes)

/-- Model of `iter().position(pred)`. -/
def findPos (p : Str → Bool) : List Str → Option Nat
  | [] => none
  | l :: ls => if p l then some 0 else (findPos p ls).map (· + 1)

/-- Do the candidate header lines contain both an `id:` and a
`createdAt:` field (checked on the trimmed line)? -/
def regionFieldsPresent (between : List Str) : Bool :=
  (between.any fun l => "id:".toList.isPrefixOf (rustTrim l)) &&
  (between.any fun l => "createdAt:".toList.isPrefixOf (rustTrim l))

/-- One iteration of `extract_content_only`'s while loop on the remaining
lines: find the first `---`, the next `---`, and when the lines between
them hold both standard fields, drop everything up to the closing
delimiter (plus one directly following empty line); otherwise the loop
breaks (`none`). -/
def hdrStep (ls : List Str) : Option (List Str) :=
  match findPos isDashLine ls with
  | none => none
  | some a =>
    match findPos isDashLine (ls.drop (a + 1)) with
    | none => none
    | some e =>
      if regionFieldsPresent ((ls.drop (a + 1)).take e) then
        some (match (ls.drop (a + 1)).drop (e + 1) with
              | [] => []
              | l :: t => if l = [] then t else l :: t)
      else none

/-- The while loop itself; the fuel `ls.length` is sufficient because every
successful `hdrStep` strictly shortens the list
(`stripHeadersGo_fixpoint` below certifies this). -/
def stripHeadersGo : Nat → List Str → List Str
  | 0, ls => ls
  | fuel + 1, ls =>
    match hdrStep ls with
    | none => ls
    | some ls2 => stripHeadersGo fuel ls2

/-- Codec `extract_content_only`: strip leading well-formed front-matter blocks
and rejoin the remaining lines with `\n`. -/
def extract_content_only (content : Str) : Str :=
  joinNl (stripHeadersGo (rustLines content).length (rustLines content))

/-- Codec `build_full_content`: the canonical header holding the id and
createdAt fields, followed by the body. -/
def build_full_content (id created_at content : Str) : Str :=
  "---\nid: ".toList ++
    (id ++ ("\ncreatedAt: ".toList ++
      (created_at ++ ("\n---\n".toList ++ content))))

/-- Spec-side predicate for C4: no pair of `---` lines encloses both an
`id:` and a `createdAt:` field. -/
def noValidHeaderRegion (ls : List Str) : Bool :=
  (List.range ls.length).all fun i =>
    (List.range ls.length).all fun j =>
      !(decide (i < j) && isDashLine (ls.getD i []) &&
        isDashLine (ls.getD j []) &&
        regionFieldsPresent ((ls.drop (i + 1)).take (j - i - 1)))

/-! ## Operations on the persisted index -/

/-- Mutate the first entry matched by `p` in place
(`iter_mut().find(...)` followed by field assignments). -/
def updateFirst (p : α → Bool) (f : α → α) : List α → List α
  | [] => []
  | a :: l => if p a then f a :: l else a :: updateFirst p f l

/-- Transition `internal_restore_note`: clear `archivedAt`, stamp `lastActiveAt`,
re-assign `expireAt = now + Duration::days(7)`. -/
def internal_restore_note (e : NoteEntry) (now : Int) : NoteEntry :=
  { e with archived_at := none,
           last_active_at := fmtRfc3339 now,
           expire_at := some (fmtRfc3339 (now + 7 * 86400)) }

/-- Operation `restore_note` on a loaded index: restore the first entry with the
given id when it is archived, then persist (the source re-asserts
`app.name` before saving and does not touch `rebuildAt`).  The persisted
document is the `.ok` payload. -/
def restore_note (index : IndexFile) (id : Str) (now : Int) :
    Except Str IndexFile :=
  if (index.notes.find? fun n => decide (n.id = id)).isSome then
    .ok { index with
          app := { index.app with name := "FadeNote".toList },
          notes := updateFirst (fun n => decide (n.id = id))
                     (fun e => if e.archived_at.isSome then
                                 internal_restore_note e now
                               else e)
                     index.notes }
  else .error "找不到指定的便签".toList

/-- Operation `update_note_activity` on a loaded index: refuse when the entry is
archived, otherwise refresh `lastActiveAt` and `expireAt = now + 7 days`
(the source re-parses the freshly formatted timestamp). -/
def update_note_activity (index : IndexFile) (id : Str) (now : Int) :
    Except Str IndexFile :=
  match index.notes.find? fun n => decide (n.id = id) with
  | none => .error "找不到指定的便签".toList
  | some e =>
    if e.archived_at.isSome then .error "note archived".toList
    else
      match parseRfc3339 (fmtRfc3339 now) with
      | none => .error "解析当前时间失败".toList
      | some w =>
        .ok { index with
              app := { index.app with name := "FadeNote".toList },
              notes := updateFirst (fun n => decide (n.id = id))
                         (fun e2 => { e2 with
                           last_active_at := fmtRfc3339 now,
                           expire_at := some (fmtRfc3339 (w + 7 * 86400)) })
                         index.notes }

/-- Operation `save_note_content` on a loaded index and an observed filesystem
(`fs` maps a relative path to the content of an existing file): refuse
when the entry is archived, otherwise rebuild the file through the codec
and refresh `lastActiveAt`, `expireAt` and `cachedPreview`.  The `.ok`
payload is the persisted index together with the written path and new
file content. -/
def save_note_content (index : IndexFile) (fs : Str → Option Str)
    (id : Str) (content : Str) (now : Int) :
    Except Str (IndexFile × Str × Str) :=
  match index.notes.find? fun n => decide (n.id = id) with
  | none => .error "找不到指定的便签".toList
  | some e =>
    if e.archived_at.isSome then .error "便签已被归档，无法更新".toList
    else
      match fs e.file.relative_path with
      | none => .error "便签文件不存在".toList
      | some existing_content =>
        match parse_id_from_content existing_content with
        | none => .error "无法从文件中解析ID".toList
        | some existing_id =>
          let created_at :=
            (extract_created_at_from_content existing_content).getD
              (fmtRfc3339 now)
          let full_content := build_full_content existing_id created_at content
          match parseRfc3339 (fmtRfc3339 now) with
          | none => .error "解析当前时间失败".toList
          | some w =>
            .ok ({ index with
                   notes := updateFirst (fun n => decide (n.id = id))
                              (fun e2 => { e2 with
                                last_active_at := fmtRfc3339 now,
                                expire_at :=
                                  some (fmtRfc3339 (w + 7 * 86400)),
                                cached_preview :=
                                  extract_first_line_preview content })
                              index.notes },
                 e.file.relative_path, full_content)

/-! ## Directory scan, reconciliation and rebuild -/

/-- One file observed by a directory scan: its content, its path relative
to the notes root, and its filesystem creation instant, in traversal
order. -/
structure FileObs where
  content : Str
  rel : Str
  created : Int
deriving DecidableEq

/-- Model of the `HashMap<String, NoteEntry>` built by inserting the prior
snapshot's entries in order (a later duplicate id overwrites an earlier
one) and then looked up by id. -/
def lookupEntry (l : List NoteEntry) (id : Str) : Option NoteEntry :=
  l.foldl (fun acc e => if e.id = id then some e else acc) none

/-- State threaded through `scan_directory_for_notes_recursive_with_existing`:
the index being extended and the `existing_ids` hash set (modelled as a
list with membership). -/
structure ScanState where
  idx : IndexFile
  ids : List Str

/-- Entry synthesized by the reconciliation scan for a newly discovered id:
`archivedAt`/`expireAt` come from the prior snapshot when the id was known
there, the timestamps from the file's creation time, and the rest are the
fixed defaults of the source. -/
def scanEntryOf (prior : List NoteEntry) (id : Str) (f : FileObs) :
    NoteEntry :=
  { id := id,
    created_at := fmtRfc3339 f.created,
    last_active_at := fmtRfc3339 f.created,
    expire_at := (lookupEntry prior id).bind fun ex => ex.expire_at,
    cached_preview := none,
    status := [],
    archived_at := (lookupEntry prior id).bind fun ex => ex.archived_at,
    window := some { x := 100, y := 100, width := 280, height := 360 },
    pinned := false,
    file := { relative_path := f.rel } }

/-- One observed `.md` file handled by the reconciliation scan: ids without
a parseable header are skipped, ids already known are skipped, new ids are
appended and recorded in `existing_ids`. -/
def scanStep (prior : List NoteEntry) (st : ScanState) (f : FileObs) :
    ScanState :=
  match parse_id_from_content f.content with
  | none => st
  | some pid =>
    if pid ∈ st.ids then st
    else
      { idx := { st.idx with notes := st.idx.notes ++ [scanEntryOf prior pid f] },
        ids := pid :: st.ids }

/-- Scan `scan_directory_for_notes` over the observed files; `prior` is the
persisted snapshot the recursive helper re-reads from `index.json`. -/
def scan_directory_for_notes (prior : List NoteEntry) (idx : IndexFile)
    (ids : List Str) (files : List FileObs) : ScanState :=
  files.foldl (scanStep prior) { idx := idx, ids := ids }

/-- Field repairs of `normalize_index` for one entry, after its id has
been resolved to `nid`: default empty timestamps to now, and default an
empty path from the (possibly regenerated) id. -/
def normalize_one (now : Int) (nid : Str) (e : NoteEntry) : NoteEntry :=
  { e with
    id := nid,
    created_at := if e.created_at = [] then fmtRfc3339 now else e.created_at,
    last_active_at := if e.last_active_at = [] then fmtRfc3339 now
                      else e.last_active_at,
    file := { relative_path :=
                if e.file.relative_path = [] then
                  "notes/unknown/".toList ++ nid ++ ".md".toList
                else e.file.relative_path } }

/-- One entry of `normalize_index`: an empty id is replaced by the next
fresh UUID of the supply (the counter is the state). -/
def normalize_entry (now : Int) (fresh : Nat → Str)
    (st : List NoteEntry × Nat) (e : NoteEntry) : List NoteEntry × Nat :=
  if e.id = [] then (st.1 ++ [normalize_one now (fresh st.2) e], st.2 + 1)
  else (st.1 ++ [normalize_one now e.id e], st.2)

/-- Repair `normalize_index`: fix illegal field values in place. -/
def normalize_index (now : Int) (fresh : Nat → Str) (index : IndexFile) :
    IndexFile :=
  { index with notes := (index.notes.foldl (normalize_entry now fresh)
                          ([], 0)).1 }

/-- Reconciliation `validate_and_fix_index` on a successfully parsed index: scan for new
files (the recursive scanner re-reads the persisted snapshot, which in a
single run is the same document), run the expire pass, normalize, restore
the original `rebuildAt`, derive every status, persist.  The result is
the persisted document. -/
def validate_and_fix_index (index : IndexFile) (files : List FileObs)
    (now : Int) (fresh : Nat → Str) : IndexFile :=
  let original_rebuild_at := index.app.rebuild_at
  let current_index_ids := index.notes.map fun n => n.id
  let st := scan_directory_for_notes index.notes index current_index_ids files
  let idx2 := apply_expire_pass st.idx now
  let idx3 := normalize_index now fresh idx2
  let idx4 := { idx3 with app := { idx3.app with
                                   rebuild_at := original_rebuild_at } }
  { idx4 with notes := idx4.notes.map derive_status }

/-- Entry synthesized by the rebuild scan: when the prior snapshot knows
the id, `createdAt`, `expireAt`, `archivedAt` and `lastActiveAt` are
carried forward; `window` is reset to `none` and `pinned` to `false` for
every entry. -/
def rebuild_entry (prior : List NoteEntry) (f : FileObs) : Option NoteEntry :=
  match parse_id_from_content f.content with
  | none => none
  | some pid =>
    some (match lookupEntry prior pid with
      | some ex =>
        { id := pid, created_at := ex.created_at,
          last_active_at := ex.last_active_at, expire_at := ex.expire_at,
          cached_preview := none, status := [],
          archived_at := ex.archived_at, window := none, pinned := false,
          file := { relative_path := f.rel } }
      | none =>
        { id := pid, created_at := fmtRfc3339 f.created,
          last_active_at := fmtRfc3339 f.created, expire_at := none,
          cached_preview := none, status := [], archived_at := none,
          window := none, pinned := false,
          file := { relative_path := f.rel } })

/-- Rebuild `rebuild_index`: ground truth is the directory tree; `snapshot` is
the best-effort re-read of the old `index.json` (`none` when missing or
unparseable).  `rebuildAt` is stamped, every status derived, and the
result persisted. -/
def rebuild_index (snapshot : Option IndexFile) (files : List FileObs)
    (now : Int) : IndexFile :=
  let prior := match snapshot with
    | some i => i.notes
    | none => []
  let appCreated := match snapshot with
    | some i => i.app.created_at
    | none => fmtRfc3339 now
  { version := 2,
    app := { name := "FadeNote".toList, created_at := appCreated,
             rebuild_at := some (fmtRfc3339 now) },
    notes := (files.filterMap (rebuild_entry prior)).map derive_status }

/-- Ids of a list of entries. -/
def idsOf (l : List NoteEntry) : List Str :=
  l.map fun n => n.id

/-! ## Concrete inputs used by witnesses and counterexamples -/

/-- A concrete `AppInfo`. -/
def wApp : AppInfo :=
  { name := "FadeNote".toList, created_at := "c".toList, rebuild_at := none }

/-- A concrete archived entry (status persisted as derived). -/
def wArchived : NoteEntry :=
  { id := "n1".toList, created_at := "c".toList, last_active_at := "l".toList,
    expire_at := none, cached_preview := none, status := "archived".toList,
    archived_at := some ("2024-01-01T00:00:00+00:00".toList),
    window := none, pinned := false,
    file := { relative_path := "p".toList } }

/-- An index holding just `wArchived`. -/
def wArchivedIdx : IndexFile :=
  { version := 2, app := wApp, notes := [wArchived] }

/-- An active entry whose `expireAt` is 1970-01-02, far in the past
relative to the evaluation instant 1000000000. -/
def wExpired : NoteEntry :=
  { wArchived with archived_at := none, status := "active".toList,
                   expire_at := some ("1970-01-02T00:00:00+00:00".toList) }

/-- Entry `wExpired`, additionally pinned. -/
def wPinned : NoteEntry :=
  { wExpired with pinned := true }

/-- An index holding just `wPinned`. -/
def wPinnedIdx : IndexFile :=
  { version := 2, app := wApp, notes := [wPinned] }

/-- An index holding just `wExpired`. -/
def wExpiredIdx : IndexFile :=
  { version := 2, app := wApp, notes := [wExpired] }

/-- An active entry whose `expireAt` does not parse as RFC 3339. -/
def wMalformed : NoteEntry :=
  { wArchived with archived_at := none, status := "active".toList,
                   expire_at := some ("next tuesday".toList) }

/-- An index holding just `wMalformed`. -/
def wMalformedIdx : IndexFile :=
  { version := 2, app := wApp, notes := [wMalformed] }

/-- Prior snapshot for the rebuild counterexample:
`{id: "n1", pinned: true, archivedAt: None}`. -/
def c2Snapshot : IndexFile :=
  { version := 2, app := wApp,
    notes := [{ wArchived with pinned := true, archived_at := none,
                               status := "active".toList }] }

/-- The matching on-disk file for id `n1`. -/
def c2File : FileObs :=
  { content := "---\nid: n1\ncreatedAt: x\n---\nhello".toList,
    rel := "notes/2024-01-01/n1.md".toList, created := 5 }

/-- A starting index that already carries two entries with the same id
(both pinned so that the expire pass and normalization leave them
untouched). -/
def c8DupIdx : IndexFile :=
  { version := 2, app := wApp,
    notes := [{ wArchived with id := "x".toList, archived_at := none,
                               pinned := true },
              { wArchived with id := "x".toList, archived_at := none,
                               pinned := true }] }

/-- A starting index with one entry of id `n1` for the C8 witness. -/
def w8Idx : IndexFile :=
  { version := 2, app := wApp,
    notes := [{ wArchived with archived_at := none, pinned := true }] }

/-- A scanned file embedding the new id `n2`. -/
def w8File : FileObs :=
  { content := "---\nid: n2\ncreatedAt: x\n---\n".toList,
    rel := "notes/2024-01-02/n2.md".toList, created := 5 }

/-- An injective UUID supply whose values collide with no id above. -/
def w8Fresh (k : Nat) : Str :=
  List.replicate (k + 1) 'u'

/-! ## Supporting lemmas on the string model -/

theorem trimRightWs_cons {c : Char} (t : Str) (h : isWs c = false) :
    trimRightWs (c :: t) = c :: trimRightWs t := by
  cases htr : trimRightWs t with
  | nil => simp [trimRightWs, htr, h]
  | cons a r => simp [trimRightWs, htr]

theorem trimRightWs_append {key : Str} (v : Str)
    (hk : ∀ c ∈ key, isWs c = false) :
    trimRightWs (key ++ v) = key ++ trimRightWs v := by
  induction key with
  | nil => simp
  | cons c k ih =>
    rw [List.cons_append, trimRightWs_cons _ (hk c (List.mem_cons_self c k)),
        ih fun c hc => hk c (List.mem_cons_of_mem _ hc)]
    simp

theorem rustTrim_key_append {c : Char} {k : Str} (v : Str)
    (hk : ∀ x ∈ c :: k, isWs x = false) :
    rustTrim ((c :: k) ++ v) = (c :: k) ++ trimRightWs v := by
  rw [rustTrim, List.cons_append, List.dropWhile_cons_of_neg, ← List.cons_append,
      trimRightWs_append v hk]
  simp [hk c (List.mem_cons_self c k)]

theorem getLast?_mem : ∀ {s : Str} {c : Char}, s.getLast? = some c → c ∈ s := by
  intro s
  induction s with
  | nil => intro c h; simp [List.getLast?] at h
  | cons a t ih =>
    intro c h
    cases t with
    | nil => simp [List.getLast?] at h; simp [h]
    | cons b t2 =>
      rw [List.getLast?_cons_cons] at h
      exact List.mem_cons_of_mem _ (ih h)

theorem stripCr_eq_self {s : Str} (h : '\r' ∉ s) : stripCr s = s := by
  rw [stripCr, if_neg]
  intro hl
  exact h (getLast?_mem hl)

theorem splitOnNl_ne_nil (s : Str) : splitOnNl s ≠ [] := by
  induction s with
  | nil => simp [splitOnNl]
  | cons c t ih =>
    by_cases hc : c = '\n'
    · simp [splitOnNl, hc]
    · cases h : splitOnNl t with
      | nil => exact absurd h ih
      | cons l ls => simp [splitOnNl, hc, h]

theorem splitOnNl_of_no_nl {s : Str} (h : '\n' ∉ s) : splitOnNl s = [s] := by
  induction s with
  | nil => simp [splitOnNl]
  | cons c t ih =>
    have hc : ¬ c = '\n' := fun he => h (he ▸ List.mem_cons_self c t)
    have ht : '\n' ∉ t := fun he => h (List.mem_cons_of_mem _ he)
    simp [splitOnNl, hc, ih ht]

theorem splitOnNl_append {a : Str} (b : Str) (ha : '\n' ∉ a) :
    splitOnNl (a ++ '\n' :: b) = a :: splitOnNl b := by
  induction a with
  | nil => simp [splitOnNl]
  | cons c a2 ih =>
    have hc : ¬ c = '\n' := fun he => ha (he ▸ List.mem_cons_self c a2)
    have ha2 : '\n' ∉ a2 := fun he => ha (List.mem_cons_of_mem _ he)
    rw [List.cons_append]
    cases h : splitOnNl (a2 ++ '\n' :: b) with
    | nil => exact absurd h (splitOnNl_ne_nil _)
    | cons l ls =>
      have := ih ha2
      rw [h] at this
      cases this
      simp [splitOnNl, hc, h]

theorem rustLines_append {a : Str} (b : Str) (ha : '\n' ∉ a) :
    rustLines (a ++ '\n' :: b) = stripCr a :: rustLines b := by
  have hne : a ++ '\n' :: b ≠ [] := by simp
  by_cases hb : b = []
  · subst hb
    rw [rustLines, if_neg hne, splitOnNl_append [] ha]
    simp [splitOnNl, rustLines]
  · rw [rustLines, if_neg hne, splitOnNl_append b ha]
    cases hsb : splitOnNl b with
    | nil => exact absurd hsb (splitOnNl_ne_nil _)
    | cons l ls =>
      rw [rustLines, if_neg hb, hsb]
      rw [List.getLast?_cons_cons]
      by_cases hlast : (l :: ls).getLast? = some ([] : Str)
      · simp only [hlast, if_pos rfl]
        rw [List.dropLast_cons_of_ne_nil (by simp)]
        simp
      · simp only [hlast, if_neg hlast]
        simp

theorem rustLines_of_no_nl {a : Str} (ha : '\n' ∉ a) (h0 : a ≠ []) :
    rustLines a = [stripCr a] := by
  rw [rustLines, if_neg h0, splitOnNl_of_no_nl ha]
  simp [h0]

theorem rustLines_joinNl :
    ∀ (lines : List Str), (∀ l ∈ lines, '\n' ∉ l ∧ '\r' ∉ l) →
      lines.getLast? ≠ some [] → rustLines (joinNl lines) = lines
  | [], _, _ => by simp [joinNl, rustLines]
  | [l], h, hl => by
    have hne : l ≠ [] := by
      intro he
      exact hl (by simp [he])
    have hm := h l (by simp)
    rw [joinNl, rustLines_of_no_nl hm.1 hne, stripCr_eq_self hm.2]
  | l :: m :: rest, h, hl => by
    have hm := h l (by simp)
    rw [show joinNl (l :: m :: rest) = l ++ '\n' :: joinNl (m :: rest) from rfl,
        rustLines_append _ hm.1, stripCr_eq_self hm.2,
        rustLines_joinNl (m :: rest)
          (fun x hx => h x (List.mem_cons_of_mem _ hx))
          (by rwa [List.getLast?_cons_cons] at hl)]

/-! ## Supporting lemmas on the header codec -/

theorem not_mem_append {α} {c : α} {a b : List α} (ha : c ∉ a) (hb : c ∉ b) :
    c ∉ a ++ b :=
  fun h => (List.mem_append.mp h).elim ha hb

theorem isPrefixOf_append_self (a b : Str) : a.isPrefixOf (a ++ b) = true := by
  induction a with
  | nil => simp [List.isPrefixOf]
  | cons c t ih => simp [List.isPrefixOf, ih]

theorem rustTrim_idline (v : Str) :
    rustTrim ("id: ".toList ++ v) = ['i', 'd', ':'] ++ trimRightWs (' ' :: v) := by
  rw [show ("id: ".toList : Str) ++ v = (['i', 'd', ':'] : Str) ++ (' ' :: v)
        from rfl]
  exact rustTrim_key_append _ (by decide)

theorem rustTrim_caline (v : Str) :
    rustTrim ("createdAt: ".toList ++ v) =
      "createdAt:".toList ++ trimRightWs (' ' :: v) := by
  rw [show ("createdAt: ".toList : Str) ++ v =
        ('c' :: "reatedAt:".toList) ++ (' ' :: v) from rfl]
  exact rustTrim_key_append _ (by decide)

theorem isDashLine_idline (v : Str) :
    isDashLine ("id: ".toList ++ v) = false := by
  rw [isDashLine, rustTrim_idline, decide_eq_false_iff_not]
  intro h
  exact absurd (congrArg (fun l => l.head?) h) (by simp [dashes])

theorem isDashLine_caline (v : Str) :
    isDashLine ("createdAt: ".toList ++ v) = false := by
  rw [isDashLine, rustTrim_caline, decide_eq_false_iff_not]
  intro h
  exact absurd (congrArg (fun l => l.head?) h) (by simp [dashes])

theorem idKey_isPrefixOf_idline (v : Str) :
    ("id:".toList.isPrefixOf (rustTrim ("id: ".toList ++ v))) = true := by
  rw [rustTrim_idline,
      show ("id:".toList : Str) = ['i', 'd', ':'] from rfl]
  exact isPrefixOf_append_self _ _

theorem caKey_isPrefixOf_caline (v : Str) :
    ("createdAt:".toList.isPrefixOf
      (rustTrim ("createdAt: ".toList ++ v))) = true := by
  rw [rustTrim_caline]
  exact isPrefixOf_append_self _ _

theorem findPos_none_of {p : Str → Bool} :
    ∀ {ls : List Str}, (∀ l ∈ ls, p l = false) → findPos p ls = none := by
  intro ls
  induction ls with
  | nil => intro _; rfl
  | cons l t ih =>
    intro h
    rw [findPos, if_neg (by simp [h l (List.mem_cons_self l t)]),
        ih fun x hx => h x (List.mem_cons_of_mem _ hx)]
    rfl

theorem findPos_some {p : Str → Bool} :
    ∀ {ls : List Str} {i : Nat}, findPos p ls = some i →
      ∃ l, ls[i]? = some l ∧ p l = true := by
  intro ls
  induction ls with
  | nil => intro i h; simp [findPos] at h
  | cons l t ih =>
    intro i h
    by_cases hp : p l = true
    · rw [findPos, if_pos hp] at h
      cases h
      exact ⟨l, by simp, hp⟩
    · rw [findPos, if_neg hp] at h
      match hft : findPos p t with
      | none => rw [hft] at h; simp at h
      | some j =>
        rw [hft] at h
        simp only [Option.map_some'] at h
        cases h
        obtain ⟨x, hx, hpx⟩ := ih hft
        exact ⟨x, by simpa using hx, hpx⟩

theorem hdrStep_header (A B : Str) (bodyLines : List Str)
    (hA : isDashLine A = false) (hB : isDashLine B = false)
    (hid : ("id:".toList.isPrefixOf (rustTrim A)) = true)
    (hca : ("createdAt:".toList.isPrefixOf (rustTrim B)) = true)
    (hfirst : bodyLines.head? ≠ some []) :
    hdrStep (dashes :: A :: B :: dashes :: bodyLines) = some bodyLines := by
  have pd : isDashLine dashes = true := by decide
  have hrfp : regionFieldsPresent [A, B] = true := by
    simp only [regionFieldsPresent, List.any_cons, List.any_nil, hid, hca,
      Bool.true_or, Bool.or_true, Bool.or_false, Bool.true_and,
      Bool.and_true, Bool.and_self]
  cases bodyLines with
  | nil =>
    have h1 : findPos isDashLine (dashes :: A :: B :: dashes :: ([] : List Str)) =
        some 0 := by
      rw [findPos, if_pos pd]
    have h2 : findPos isDashLine (A :: B :: dashes :: ([] : List Str)) =
        some 2 := by
      rw [findPos, if_neg (by simp [hA]), findPos, if_neg (by simp [hB]),
          findPos, if_pos pd]
      rfl
    simp [hdrStep.eq_def, h1, h2, hrfp]
  | cons l t =>
    have hl : ¬ l = [] := fun he => hfirst (by simp [he])
    have h1 : findPos isDashLine (dashes :: A :: B :: dashes :: l :: t) =
        some 0 := by
      rw [findPos, if_pos pd]
    have h2 : findPos isDashLine (A :: B :: dashes :: l :: t) = some 2 := by
      rw [findPos, if_neg (by simp [hA]), findPos, if_neg (by simp [hB]),
          findPos, if_pos pd]
      rfl
    simp [hdrStep.eq_def, h1, h2, hrfp, hl]

theorem hdrStep_none_of_no_dash {ls : List Str}
    (h : ∀ l ∈ ls, isDashLine l = false) : hdrStep ls = none := by
  rw [hdrStep.eq_def, findPos_none_of h]

theorem stripHeadersGo_succ (fuel : Nat) (ls : List Str) :
    stripHeadersGo (fuel + 1) ls =
      match hdrStep ls with
      | none => ls
      | some ls2 => stripHeadersGo fuel ls2 := rfl

theorem stripHeadersGo_of_none {ls : List Str} (h : hdrStep ls = none) :
    ∀ fuel, stripHeadersGo fuel ls = ls := by
  intro fuel
  cases fuel with
  | zero => rfl
  | succ n => rw [stripHeadersGo_succ, h]

theorem hdrStep_shrinks :
    ∀ {ls ls2 : List Str}, hdrStep ls = some ls2 → ls2.length < ls.length := by
  intro ls ls2 h
  rw [hdrStep.eq_def] at h
  split at h
  · exact absurd h (by simp)
  next a h1 =>
    split at h
    · exact absurd h (by simp)
    next e h2 =>
      split at h
      case isFalse => exact absurd h (by simp)
      case isTrue hr =>
        have hlen : ls ≠ [] := by
          intro he
          rw [he] at h1
          simp [findPos] at h1
        have hpos : 0 < ls.length := List.length_pos.mpr hlen
        have hx := Option.some.inj h
        subst hx
        cases h3 : (ls.drop (a + 1)).drop (e + 1) with
        | nil =>
          simpa using hpos
        | cons l t =>
          have hdrop := congrArg List.length h3
          simp only [List.length_drop, List.length_cons] at hdrop
          show (if l = [] then t else l :: t).length < ls.length
          by_cases hl : l = []
          · rw [if_pos hl]
            omega
          · rw [if_neg hl]
            simp only [List.length_cons]
            omega

theorem stripHeadersGo_fixpoint :
    ∀ (fuel : Nat) (ls : List Str), ls.length ≤ fuel →
      hdrStep (stripHeadersGo fuel ls) = none := by
  intro fuel
  induction fuel with
  | zero =>
    intro ls h
    have : ls = [] := by
      cases ls with
      | nil => rfl
      | cons a t => simp at h
    rw [this]
    rfl
  | succ n ih =>
    intro ls h
    rw [stripHeadersGo_succ]
    match h1 : hdrStep ls with
    | none => exact h1
    | some ls2 =>
      have := hdrStep_shrinks h1
      exact ih ls2 (by omega)

theorem nvhr_hdrStep {ls : List Str} (h : noValidHeaderRegion ls = true) :
    hdrStep ls = none := by
  rw [hdrStep.eq_def]
  split
  · rfl
  next a h1 =>
    split
    · rfl
    next e h2 =>
      obtain ⟨la, hla, hpa⟩ := findPos_some h1
      obtain ⟨le, hle, hpe⟩ := findPos_some h2
      rw [List.getElem?_drop] at hle
      have hha : a < ls.length := by
        by_contra hc
        rw [List.getElem?_eq_none (by omega)] at hla
        cases hla
      have hhe : a + 1 + e < ls.length := by
        by_contra hc
        rw [List.getElem?_eq_none (by omega)] at hle
        cases hle
      have hinst := (List.all_eq_true.mp
        ((List.all_eq_true.mp h) a (List.mem_range.mpr (by omega))))
        (a + 1 + e) (List.mem_range.mpr hhe)
      have hga : ls.getD a [] = la := by
        simp [List.getD, hla]
      have hge : ls.getD (a + 1 + e) [] = le := by
        simp [List.getD, hle]
      rw [hga, hge] at hinst
      have harith : a + 1 + e - a - 1 = e := by omega
      rw [harith] at hinst
      simp only [hpa, hpe, Bool.and_true, Bool.true_and,
        decide_eq_true_eq, Bool.not_eq_true', Bool.and_eq_false_iff,
        decide_eq_false_iff_not] at hinst
      have hr : ¬ regionFieldsPresent ((ls.drop (a + 1)).take e) = true := by
        rcases hinst with hc | hc
        · omega
        · simp [hc]
      rw [if_neg hr]

theorem stripHeadersGo_step {fuel : Nat} {ls ls2 : List Str}
    (h : hdrStep ls = some ls2) (h2 : hdrStep ls2 = none) (hf : 1 ≤ fuel) :
    stripHeadersGo fuel ls = ls2 := by
  cases fuel with
  | zero => omega
  | succ n =>
    rw [stripHeadersGo_succ, h]
    show stripHeadersGo n ls2 = ls2
    exact stripHeadersGo_of_none h2 n

theorem rustLines_build (nid ca body : Str)
    (h1 : '\n' ∉ nid) (h2 : '\r' ∉ nid) (h3 : '\n' ∉ ca) (h4 : '\r' ∉ ca) :
    rustLines (build_full_content nid ca body) =
      dashes :: ("id: ".toList ++ nid) :: ("createdAt: ".toList ++ ca) ::
        dashes :: rustLines body := by
  have e1 : ("---\nid: ".toList : Str) = dashes ++ '\n' :: "id: ".toList := rfl
  have e2 : ("\ncreatedAt: ".toList : Str) =
      '\n' :: "createdAt: ".toList := rfl
  have e3 : ("\n---\n".toList : Str) = '\n' :: (dashes ++ ['\n']) := rfl
  rw [build_full_content, e1, e2, e3]
  simp only [List.append_assoc, List.cons_append, List.nil_append]
  rw [rustLines_append _ (by decide),
      show stripCr dashes = dashes from by decide,
      ← List.append_assoc,
      rustLines_append _ (not_mem_append (by decide) h1),
      stripCr_eq_self (not_mem_append (by decide) h2),
      ← List.append_assoc,
      rustLines_append _ (not_mem_append (by decide) h3),
      stripCr_eq_self (not_mem_append (by decide) h4),
      rustLines_append _ (by decide),
      show stripCr dashes = dashes from by decide]

/-- C3 (amended): the header round trip returns the body unchanged for
every id and createdAt free of newline and carriage-return characters and
every body that is a `\n`-join of lines that contain no newline or
carriage return, none of which trims to `---`, whose first line is not
empty and whose last line is not empty.  (As stated over all strings the
claim fails: a trailing newline, a leading blank line, an embedded
`---`-header in the body, or CRLF line endings are not reproduced; see
the counterexample.) -/
theorem c3_header_roundtrip (nid ca : Str) (bodyLines : List Str)
    (h1 : '\n' ∉ nid) (h2 : '\r' ∉ nid) (h3 : '\n' ∉ ca) (h4 : '\r' ∉ ca)
    (h5 : ∀ l ∈ bodyLines, '\n' ∉ l ∧ '\r' ∉ l)
    (h6 : bodyLines.head? ≠ some [])
    (h7 : bodyLines.getLast? ≠ some [])
    (h8 : ∀ l ∈ bodyLines, rustTrim l ≠ dashes) :
    extract_content_only (build_full_content nid ca (joinNl bodyLines)) =
      joinNl bodyLines := by
  have hrl : rustLines (build_full_content nid ca (joinNl bodyLines)) =
      dashes :: ("id: ".toList ++ nid) :: ("createdAt: ".toList ++ ca) ::
        dashes :: bodyLines := by
    rw [rustLines_build _ _ _ h1 h2 h3 h4, rustLines_joinNl bodyLines h5 h7]
  have hstep := hdrStep_header ("id: ".toList ++ nid)
    ("createdAt: ".toList ++ ca) bodyLines (isDashLine_idline nid)
    (isDashLine_caline ca) (idKey_isPrefixOf_idline nid)
    (caKey_isPrefixOf_caline ca) h6
  have hnone : hdrStep bodyLines = none := hdrStep_none_of_no_dash
    fun l hl => by simp [isDashLine, h8 l hl]
  unfold extract_content_only
  rw [hrl, stripHeadersGo_step hstep hnone (by simp)]

/-- C3 counterexample: for the body `"x\n"` (any body with a trailing
newline) the round trip does not return the body unchanged — the claim
as stated over all strings is false. -/
theorem c3_roundtrip_counterexample :
    extract_content_only
        (build_full_content "a".toList "b".toList "x\n".toList) ≠
      "x\n".toList := by decide

/-- C3 witness: the amended round trip at a concrete id, createdAt and
two-line body. -/
theorem c3_header_roundtrip_witness :
    ('\n' ∉ "n1".toList) ∧
    extract_content_only (build_full_content "n1".toList "2024".toList
        (joinNl ["hello".toList, "world".toList])) =
      joinNl ["hello".toList, "world".toList] :=
  ⟨by decide,
   c3_header_roundtrip "n1".toList "2024".toList
     ["hello".toList, "world".toList] (by decide) (by decide) (by decide)
     (by decide) (by decide) (by decide) (by decide) (by decide)⟩

/-- C4 (amended): for content that contains `---` lines but in which no
`---`-delimited region holds both an `id:` line and a `createdAt:` line,
`extract_content_only` returns the content unchanged, provided the
content is in normalized line form (no CRLF endings and no trailing
newline, i.e. rejoining its own lines reproduces it).  As stated over
all such strings the claim fails only by line-ending normalization; see
the counterexample. -/
theorem c4_no_spurious_stripping (c : Str)
    (hdash : ∃ l ∈ rustLines c, rustTrim l = dashes)
    (hnv : noValidHeaderRegion (rustLines c) = true)
    (hnorm : joinNl (rustLines c) = c) :
    extract_content_only c = c := by
  unfold extract_content_only
  rw [stripHeadersGo_of_none (nvhr_hdrStep hnv), hnorm]

/-- C4 counterexample: `"---\nx\n"` contains a `---` line and no valid
header region, yet `extract_content_only` drops the trailing newline, so
the content is not returned unchanged. -/
theorem c4_counterexample :
    (∃ l ∈ rustLines ("---\nx\n".toList), rustTrim l = dashes) ∧
    noValidHeaderRegion (rustLines ("---\nx\n".toList)) = true ∧
    extract_content_only ("---\nx\n".toList) ≠ "---\nx\n".toList := by
  decide

/-- C4 witness: a normalized body containing a stray `---` line is
returned unchanged. -/
theorem c4_no_spurious_stripping_witness :
    extract_content_only ("body\n---\nmore".toList) =
      "body\n---\nmore".toList :=
  c4_no_spurious_stripping _ (by decide) (by decide) (by decide)

/-! ## Lifecycle claims -/

/-- C5: a pinned entry is left completely unchanged by the expire pass
(in particular its archivedAt stays what it was, staying `none`), whatever
its `expireAt` is. -/
theorem c5_pin_immunity (idx : IndexFile) (now : Int) (i : Nat)
    (e : NoteEntry) (hi : idx.notes[i]? = some e) (hp : e.pinned = true) :
    (apply_expire_pass idx now).notes[i]? = some e := by
  have hexp : is_expired_check e now = false := by
    simp [is_expired_check, hp]
  have hstep : expireStep now e = e := by
    simp [expireStep, hexp]
  simp [apply_expire_pass, List.getElem?_map, hi, hstep]

/-- C5 witness: a pinned entry whose `expireAt` (1970-01-02) is strictly
before the evaluation instant is untouched by the pass. -/
theorem c5_pin_immunity_witness :
    wPinnedIdx.notes[0]? = some wPinned ∧ wPinned.pinned = true ∧
    (apply_expire_pass wPinnedIdx 1000000000).notes[0]? = some wPinned :=
  ⟨by decide, by decide,
   c5_pin_immunity wPinnedIdx 1000000000 0 wPinned (by decide) (by decide)⟩

theorem expireStep_clears (e : NoteEntry) (now : Int)
    (ha : e.archived_at = none)
    (hs : (expireStep now e).archived_at.isSome = true) :
    (expireStep now e).expire_at = none := by
  by_cases hc : (e.archived_at.isNone && is_expired_check e now) = true
  · simp [expireStep, hc, archive_note]
  · have hstep : expireStep now e = e := by
      unfold expireStep
      rw [if_neg hc]
    rw [hstep] at hs
    rw [ha] at hs
    simp at hs

/-- C6: whenever the expire pass turns an active entry into an archived
one, the result has `expireAt = none` (in the source the error fallback of
`archive_note` is unreachable, since `archive_note` always returns `Ok`);
consequently, an index whose archived entries all satisfy
archivedAt-present ⇒ expireAt-absent still satisfies it after the expire
pass, so every archived entry produced by the pass does. -/
theorem c6_archival_clears_expiry :
    (∀ (e : NoteEntry) (now : Int), e.archived_at = none →
        (expireStep now e).archived_at.isSome = true →
        (expireStep now e).expire_at = none) ∧
    (∀ (idx : IndexFile) (now : Int),
        (∀ e ∈ idx.notes, e.archived_at.isSome = true → e.expire_at = none) →
        ∀ e2 ∈ (apply_expire_pass idx now).notes,
          e2.archived_at.isSome = true → e2.expire_at = none) := by
  refine ⟨fun e now ha hs => expireStep_clears e now ha hs, ?_⟩
  intro idx now hinv e2 hmem ha
  simp only [apply_expire_pass] at hmem
  rw [List.mem_map] at hmem
  obtain ⟨e, he, rfl⟩ := hmem
  cases hcase : e.archived_at with
  | none => exact expireStep_clears e now hcase ha
  | some t =>
    have hstep : expireStep now e = e := by
      unfold expireStep
      rw [if_neg]
      simp [hcase]
    rw [hstep] at ha ⊢
    exact hinv e he ha

/-- C6 witness: archiving the concrete expired entry clears its
`expireAt`. -/
theorem c6_archival_clears_expiry_witness :
    (expireStep 1000000000 wExpired).expire_at = none :=
  c6_archival_clears_expiry.1 wExpired 1000000000 (by decide) (by decide)

theorem find?_updateFirst {α} (p : α → Bool) (f : α → α)
    (hpf : ∀ a, p a = true → p (f a) = true) :
    ∀ (l : List α) {e : α}, l.find? p = some e →
      (updateFirst p f l).find? p = some (f e) := by
  intro l
  induction l with
  | nil => intro e h; simp [List.find?] at h
  | cons a t ih =>
    intro e h
    by_cases hpa : p a = true
    · rw [List.find?_cons_of_pos _ hpa] at h
      cases h
      simp only [updateFirst, if_pos hpa]
      rw [List.find?_cons_of_pos _ (hpf a hpa)]
    · rw [List.find?_cons_of_neg _ hpa] at h
      simp only [updateFirst, if_neg hpa]
      rw [List.find?_cons_of_neg _ hpa]
      exact ih h

/-- C7: restoring an archived entry clears `archivedAt`, sets
`lastActiveAt` to the current instant and re-assigns
`expireAt = now + 7 days` (7 * 86400 seconds); the persisted entry is
active with that fresh expiry. -/
theorem c7_restore_note (idx : IndexFile) (nid : Str) (now : Int)
    (e : NoteEntry) (t : Str)
    (hfind : (idx.notes.find? fun n => decide (n.id = nid)) = some e)
    (harch : e.archived_at = some t) :
    ((restore_note idx nid now).toOption.bind fun j =>
        j.notes.find? fun n => decide (n.id = nid)) =
      some { e with archived_at := none,
                    last_active_at := fmtRfc3339 now,
                    expire_at := some (fmtRfc3339 (now + 7 * 86400)) } := by
  have hsome : (idx.notes.find? fun n => decide (n.id = nid)).isSome = true := by
    rw [hfind]
    rfl
  have hpf : ∀ a : NoteEntry, decide (a.id = nid) = true →
      decide ((if a.archived_at.isSome then internal_restore_note a now
               else a).id = nid) = true := by
    intro a hda
    have hid : (if a.archived_at.isSome then internal_restore_note a now
                else a).id = a.id := by
      by_cases hA : a.archived_at.isSome <;> simp [hA, internal_restore_note]
    rw [hid]
    exact hda
  unfold restore_note
  rw [if_pos hsome]
  show (updateFirst (fun n => decide (n.id = nid))
          (fun e2 => if e2.archived_at.isSome then
                       internal_restore_note e2 now
                     else e2)
          idx.notes).find? (fun n => decide (n.id = nid)) = _
  rw [find?_updateFirst _ _ hpf idx.notes hfind]
  simp [harch, internal_restore_note]

/-- C7 witness: restoring the concrete archived entry `n1` at instant 0
yields `expireAt = 1970-01-08`. -/
theorem c7_restore_note_witness :
    ((restore_note wArchivedIdx ("n1".toList) 0).toOption.bind fun j =>
        j.notes.find? fun n => decide (n.id = "n1".toList)) =
      some { wArchived with
             archived_at := none,
             last_active_at := fmtRfc3339 0,
             expire_at := some (fmtRfc3339 (0 + 7 * 86400)) } :=
  c7_restore_note wArchivedIdx ("n1".toList) 0 wArchived
    ("2024-01-01T00:00:00+00:00".toList) (by decide) (by decide)

/-- C9: an edit or activity operation targeting a note whose index entry
is archived fails with the explicit error before any mutation — the model
returns `.error` carrying no new index or file state, so the body,
`lastActiveAt` and `expireAt` of the note are unchanged. -/
theorem c9_archived_conflict (idx : IndexFile) (fs : Str → Option Str)
    (nid content : Str) (now : Int) (e : NoteEntry) (t : Str)
    (hfind : (idx.notes.find? fun n => decide (n.id = nid)) = some e)
    (harch : e.archived_at = some t) :
    update_note_activity idx nid now = .error ("note archived".toList) ∧
    save_note_content idx fs nid content now =
      .error ("便签已被归档，无法更新".toList) := by
  constructor
  · simp [update_note_activity, hfind, harch]
  · simp [save_note_content, hfind, harch]

/-- C9 witness: both operations refuse the concrete archived entry. -/
theorem c9_archived_conflict_witness :
    update_note_activity wArchivedIdx ("n1".toList) 0 =
      .error ("note archived".toList) ∧
    save_note_content wArchivedIdx (fun _ => none) ("n1".toList)
        ("new body".toList) 0 =
      .error ("便签已被归档，无法更新".toList) :=
  c9_archived_conflict wArchivedIdx (fun _ => none) ("n1".toList)
    ("new body".toList) 0 wArchived ("2024-01-01T00:00:00+00:00".toList)
    (by decide) (by decide)

/-- C10: a present but unparseable `expireAt` never causes archival: for a
non-pinned, non-archived entry `is_expired_check` is false and the expire
pass leaves the entry unchanged (archivedAt stays `none`). -/
theorem c10_malformed_expiry (idx : IndexFile) (now : Int) (i : Nat)
    (e : NoteEntry) (s : Str)
    (hi : idx.notes[i]? = some e)
    (hpin : e.pinned = false)
    (harch : e.archived_at = none)
    (hexp : e.expire_at = some s)
    (hparse : parseRfc3339 s = none) :
    is_expired_check e now = false ∧
    (apply_expire_pass idx now).notes[i]? = some e := by
  have hchk : is_expired_check e now = false := by
    simp [is_expired_check, hpin, hexp, hparse]
  refine ⟨hchk, ?_⟩
  have hstep : expireStep now e = e := by
    simp [expireStep, hchk]
  simp [apply_expire_pass, List.getElem?_map, hi, hstep]

/-- C10 witness: the malformed expiry string `next tuesday` never
archives its entry. -/
theorem c10_malformed_expiry_witness :
    is_expired_check wMalformed 1000000000 = false ∧
    (apply_expire_pass wMalformedIdx 1000000000).notes[0]? =
      some wMalformed :=
  c10_malformed_expiry wMalformedIdx 1000000000 0 wMalformed
    ("next tuesday".toList) (by decide) (by decide) (by decide) (by decide)
    (by decide)

/-! ## Status derivation and rebuild claims (code-bug evidence) -/

/-- C1 (code-bug evidence): after `restore_note` on the archived entry
`n1`, the persisted index holds an entry with `archivedAt = none` whose
`status` is still `"archived"` — the transition code saves without
recomputing the status, so the persisted status is not the derived one. -/
theorem c1_restore_persists_stale_status :
    (((restore_note wArchivedIdx ("n1".toList) 0).toOption.bind fun j =>
        j.notes[0]?).map fun n => (n.archived_at, n.status)) =
      some (none, "archived".toList) := by decide

/-- C2 (code-bug evidence): rebuilding from a usable snapshot whose entry
`n1` has `pinned = true` and `archivedAt = none` carries forward
`createdAt`, `lastActiveAt`, `archivedAt` and `expireAt`, but resets
`pinned` to `false`, contradicting the claimed preservation of `pinned`. -/
theorem c2_rebuild_resets_pinned :
    ((rebuild_index (some c2Snapshot) [c2File] 0).notes.map fun n =>
        (n.id, n.pinned)) = [("n1".toList, false)] ∧
    ((rebuild_index (some c2Snapshot) [c2File] 0).notes.map fun n =>
        (n.created_at, n.last_active_at, n.archived_at, n.expire_at)) =
      [("c".toList, "l".toList, none, none)] := by
  constructor <;> decide

/-! ## Reconciliation produces no duplicate ids (C8) -/

theorem expireStep_id (now : Int) (e : NoteEntry) :
    (expireStep now e).id = e.id := by
  unfold expireStep
  split
  · simp [archive_note]
  · rfl

theorem derive_status_id (e : NoteEntry) : (derive_status e).id = e.id := rfl

theorem normalize_one_id (now : Int) (nid : Str) (e : NoteEntry) :
    (normalize_one now nid e).id = nid := rfl

theorem scanEntryOf_id (prior : List NoteEntry) (pid : Str) (f : FileObs) :
    (scanEntryOf prior pid f).id = pid := rfl

theorem idsOf_append (a b : List NoteEntry) :
    idsOf (a ++ b) = idsOf a ++ idsOf b := by
  simp [idsOf]

theorem idsOf_expire (idx : IndexFile) (now : Int) :
    idsOf (apply_expire_pass idx now).notes = idsOf idx.notes := by
  simp only [apply_expire_pass, idsOf, List.map_map]
  exact List.map_congr_left fun e _ => expireStep_id now e

theorem idsOf_derive (l : List NoteEntry) :
    idsOf (l.map derive_status) = idsOf l := by
  simp only [idsOf, List.map_map]
  exact List.map_congr_left fun e _ => derive_status_id e

theorem scanStep_none (prior : List NoteEntry) (st : ScanState) (f : FileObs)
    (hp : parse_id_from_content f.content = none) :
    scanStep prior st f = st := by
  simp [scanStep, hp]

theorem scanStep_mem (prior : List NoteEntry) (st : ScanState) (f : FileObs)
    (pid : Str) (hp : parse_id_from_content f.content = some pid)
    (hm : pid ∈ st.ids) : scanStep prior st f = st := by
  simp [scanStep, hp, hm]

theorem scanStep_new (prior : List NoteEntry) (st : ScanState) (f : FileObs)
    (pid : Str) (hp : parse_id_from_content f.content = some pid)
    (hm : pid ∉ st.ids) :
    scanStep prior st f =
      { idx := { st.idx with
                 notes := st.idx.notes ++ [scanEntryOf prior pid f] },
        ids := pid :: st.ids } := by
  simp [scanStep, hp, hm]

theorem scan_fold_inv (prior : List NoteEntry) :
    ∀ (files : List FileObs) (st : ScanState),
      (idsOf st.idx.notes).Nodup →
      (∀ n ∈ st.idx.notes, n.id ∈ st.ids) →
      ((idsOf (files.foldl (scanStep prior) st).idx.notes).Nodup ∧
       ∀ n ∈ (files.foldl (scanStep prior) st).idx.notes,
         n ∈ st.idx.notes ∨
         ∃ f ∈ files, parse_id_from_content f.content = some n.id) := by
  intro files
  induction files with
  | nil =>
    intro st h1 h2
    exact ⟨h1, fun n hn => Or.inl hn⟩
  | cons f fs ih =>
    intro st h1 h2
    rw [List.foldl_cons]
    cases hp : parse_id_from_content f.content with
    | none =>
      rw [scanStep_none prior st f hp]
      obtain ⟨ha, hb⟩ := ih st h1 h2
      refine ⟨ha, fun n hn => ?_⟩
      rcases hb n hn with hc | ⟨g, hg, hgp⟩
      · exact Or.inl hc
      · exact Or.inr ⟨g, List.mem_cons_of_mem _ hg, hgp⟩
    | some pid =>
      by_cases hm : pid ∈ st.ids
      · rw [scanStep_mem prior st f pid hp hm]
        obtain ⟨ha, hb⟩ := ih st h1 h2
        refine ⟨ha, fun n hn => ?_⟩
        rcases hb n hn with hc | ⟨g, hg, hgp⟩
        · exact Or.inl hc
        · exact Or.inr ⟨g, List.mem_cons_of_mem _ hg, hgp⟩
      · rw [scanStep_new prior st f pid hp hm]
        have hnodup : (idsOf (st.idx.notes ++ [scanEntryOf prior pid f])).Nodup := by
          rw [idsOf_append]
          rw [List.nodup_append]
          refine ⟨h1, List.nodup_singleton _, fun x hx hx2 => ?_⟩
          have : x = pid := by
            simpa [idsOf, scanEntryOf_id] using hx2
          subst this
          obtain ⟨n, hn, hnid⟩ := List.mem_map.mp hx
          exact hm (hnid ▸ h2 n hn)
        have hcover : ∀ n ∈ st.idx.notes ++ [scanEntryOf prior pid f],
            n.id ∈ pid :: st.ids := by
          intro n hn
          rcases List.mem_append.mp hn with hc | hc
          · exact List.mem_cons_of_mem _ (h2 n hc)
          · have : n = scanEntryOf prior pid f := by simpa using hc
            subst this
            rw [scanEntryOf_id]
            exact List.mem_cons_self _ _
        obtain ⟨ha, hb⟩ := ih
          { idx := { st.idx with
                     notes := st.idx.notes ++ [scanEntryOf prior pid f] },
            ids := pid :: st.ids } hnodup hcover
        refine ⟨ha, fun n hn => ?_⟩
        rcases hb n hn with hc | ⟨g, hg, hgp⟩
        · rcases List.mem_append.mp hc with hd | hd
          · exact Or.inl hd
          · have : n = scanEntryOf prior pid f := by simpa using hd
            subst this
            exact Or.inr ⟨f, List.mem_cons_self _ _, by rw [scanEntryOf_id]; exact hp⟩
        · exact Or.inr ⟨g, List.mem_cons_of_mem _ hg, hgp⟩

theorem normalize_fold_nodup (now : Int) (fresh : Nat → Str)
    (hinj : ∀ j k, fresh j = fresh k → j = k) :
    ∀ (notes acc : List NoteEntry) (k : Nat),
      (idsOf acc).Nodup →
      (idsOf notes).Nodup →
      (∀ x ∈ idsOf notes, x ≠ [] → x ∉ idsOf acc) →
      (∀ j, k ≤ j → fresh j ∉ idsOf acc) →
      (∀ j, ∀ n ∈ notes, n.id ≠ [] → n.id ≠ fresh j) →
      (idsOf (notes.foldl (normalize_entry now fresh) (acc, k)).1).Nodup := by
  intro notes
  induction notes with
  | nil =>
    intro acc k hA _ _ _ _
    exact hA
  | cons e rest ih =>
    intro acc k hA hB hC hD hE
    rw [List.foldl_cons]
    have hBrest : (idsOf rest).Nodup := by
      have : idsOf (e :: rest) = e.id :: idsOf rest := rfl
      rw [this] at hB
      exact hB.of_cons
    by_cases he : e.id = []
    · rw [show normalize_entry now fresh (acc, k) e =
            (acc ++ [normalize_one now (fresh k) e], k + 1) from by
          simp [normalize_entry, he]]
      apply ih (acc ++ [normalize_one now (fresh k) e]) (k + 1)
      · rw [idsOf_append]
        rw [List.nodup_append]
        refine ⟨hA, List.nodup_singleton _, fun x hx hx2 => ?_⟩
        have : x = fresh k := by
          simpa [idsOf, normalize_one_id] using hx2
        subst this
        exact hD k (Nat.le_refl k) hx
      · exact hBrest
      · intro x hx hxne hmem
        rw [idsOf_append] at hmem
        rcases List.mem_append.mp hmem with hc | hc
        · exact hC x (List.mem_cons_of_mem _ hx) hxne hc
        · have : x = fresh k := by
            simpa [idsOf, normalize_one_id] using hc
          obtain ⟨n, hn, hnid⟩ := List.mem_map.mp hx
          exact hE k n (List.mem_cons_of_mem _ hn) (hnid ▸ hxne) (hnid ▸ this)
      · intro j hj hmem
        rw [idsOf_append] at hmem
        rcases List.mem_append.mp hmem with hc | hc
        · exact hD j (by omega) hc
        · have : fresh j = fresh k := by
            simpa [idsOf, normalize_one_id] using hc
          have := hinj j k this
          omega
      · intro j n hn hne
        exact hE j n (List.mem_cons_of_mem _ hn) hne
    · rw [show normalize_entry now fresh (acc, k) e =
            (acc ++ [normalize_one now e.id e], k) from by
          simp [normalize_entry, he]]
      apply ih (acc ++ [normalize_one now e.id e]) k
      · rw [idsOf_append]
        rw [List.nodup_append]
        refine ⟨hA, List.nodup_singleton _, fun x hx hx2 => ?_⟩
        have hxe : x = e.id := by
          simpa [idsOf, normalize_one_id] using hx2
        exact hC e.id (List.mem_cons_self _ _) he (hxe ▸ hx)
      · exact hBrest
      · intro x hx hxne hmem
        rw [idsOf_append] at hmem
        rcases List.mem_append.mp hmem with hc | hc
        · exact hC x (List.mem_cons_of_mem _ hx) hxne hc
        · have hxe : x = e.id := by
            simpa [idsOf, normalize_one_id] using hc
          have : idsOf (e :: rest) = e.id :: idsOf rest := rfl
          rw [this] at hB
          exact (List.nodup_cons.mp hB).1 (hxe ▸ hx)
      · intro j hj hmem
        rw [idsOf_append] at hmem
        rcases List.mem_append.mp hmem with hc | hc
        · exact hD j hj hc
        · have : fresh j = e.id := by
            simpa [idsOf, normalize_one_id] using hc
          exact hE j e (List.mem_cons_self _ _) he this.symm
      · intro j n hn hne
        exact hE j n (List.mem_cons_of_mem _ hn) hne

/-- C8 (amended): for a starting index whose entries already carry
pairwise-distinct ids and a set of on-disk note files with distinct
embedded ids, the reconciliation pass (`validate_and_fix_index` with its
scan) never produces an index containing two entries that share an id:
only ids not already present are synthesized, each newly added id is
recorded so it is added at most once, and UUIDs regenerated for empty ids
are modelled as pairwise distinct and fresh.  (As stated over an
arbitrary starting index the claim fails: duplicates already present in
the starting index are preserved; see the counterexample.) -/
theorem c8_reconciliation_no_duplicate_ids (idx : IndexFile)
    (files : List FileObs) (now : Int) (fresh : Nat → Str)
    (hstart : (idsOf idx.notes).Nodup)
    (hfiles : (files.filterMap fun f => parse_id_from_content f.content).Nodup)
    (hinj : ∀ j k, fresh j = fresh k → j = k)
    (hf2 : ∀ j, fresh j ∉ idsOf idx.notes)
    (hf3 : ∀ j, ∀ f ∈ files, parse_id_from_content f.content ≠ some (fresh j)) :
    (idsOf (validate_and_fix_index idx files now fresh).notes).Nodup := by
  have hcover0 : ∀ n ∈ idx.notes, n.id ∈ idx.notes.map fun n => n.id :=
    fun n hn => List.mem_map_of_mem _ hn
  obtain ⟨hnodup, hprov⟩ := scan_fold_inv idx.notes files
    { idx := idx, ids := idx.notes.map fun n => n.id } hstart hcover0
  unfold validate_and_fix_index
  rw [idsOf_derive]
  unfold normalize_index
  apply normalize_fold_nodup now fresh hinj
  · exact List.nodup_nil
  · rw [idsOf_expire]
    exact hnodup
  · intro x hx hxne hmem
    exact absurd hmem (List.not_mem_nil x)
  · intro j hj hmem
    exact absurd hmem (List.not_mem_nil _)
  · intro j n hn hne hcontra
    rw [apply_expire_pass] at hn
    simp only [List.mem_map] at hn
    obtain ⟨m, hm, rfl⟩ := hn
    rw [expireStep_id] at hcontra
    rcases hprov m hm with hc | ⟨g, hg, hgp⟩
    · exact hf2 j (hcontra ▸ List.mem_map_of_mem _ hc)
    · exact hf3 j g hg (hcontra ▸ hgp)

/-- C8 counterexample: a starting index already holding two entries with
id `"x"` is passed through reconciliation unchanged in its ids — the
claim as stated over any starting index is false. -/
theorem c8_counterexample :
    ¬ (idsOf (validate_and_fix_index c8DupIdx [] 0 w8Fresh).notes).Nodup := by
  decide

/-- C8 witness: reconciling the concrete one-entry index with one new
on-disk file yields distinct ids. -/
theorem c8_reconciliation_witness :
    (idsOf (validate_and_fix_index w8Idx [w8File] 0 w8Fresh).notes).Nodup :=
  c8_reconciliation_no_duplicate_ids w8Idx [w8File] 0 w8Fresh (by decide)
    (by decide)
    (fun j k h => by
      have h2 := congrArg List.length h
      simp [w8Fresh] at h2
      omega)
    (fun j h => by
      have h2 : List.replicate (j + 1) 'u' = 'n' :: ['1'] := by
        simpa [idsOf, w8Idx, wArchived, w8Fresh] using h
      rw [List.replicate_succ] at h2
      injection h2 with h3 h4
      exact absurd h3 (by decide))
    (fun j f hf hcontra => by
      have hfe : f = w8File := by simpa using hf
      subst hfe
      have hp : parse_id_from_content w8File.content = some ("n2".toList) := by
        decide
      rw [hp] at hcontra
      injection hcontra with h2
      rw [show ("n2".toList : Str) = 'n' :: ['2'] from rfl,
          w8Fresh, List.replicate_succ] at h2
      injection h2 with h3 h4
      exact absurd h3 (by decide))

end FadeNote
